import Mathlib

/-!
Verification development for the Python AST analyzer
(src/python/ast_analyzer.py).

The analyzer extracts a structured description of one function from a
parsed Python source file: signature, body analysis (branches,
exceptions, outbound calls, complexity), enclosing-class context,
file-wide imports, documentation, and file/module paths.

We shallowly embed the syntax-tree data model and every extraction
routine the frozen claims touch, translating each routine directly from
the source.  Machine behavior notes:

* CPython `ast.walk` yields a node and all of its descendants; its
  documentation leaves the order unspecified (the implementation is
  breadth-first).  We model the traversal as a depth-first pre-order,
  which shares with the breadth-first order the two facts the claims
  rely on: a parent precedes its descendants, and siblings keep their
  left-to-right order.
* Python `==` on AST nodes is object identity.  Wherever the source
  compares a candidate body item against the target function node it
  also accepts equal start lines; since the target is a function
  definition (which always carries a line number) identity implies
  equal line numbers, so the combined test is exactly the line-number
  test we embed.
* `list(set(xs))` deduplicates with an order that is a deterministic
  function of the insertion sequence within one process; we model it as
  first-occurrence deduplication, which is likewise deterministic.
-/

/-- One name of a Python `import` / `from ... import` statement:
the imported name and its optional `as` alias. -/
structure PyAlias where
  name : String
  asname : Option String
deriving Repr, DecidableEq

mutual

/-- Python AST nodes, restricted to the node kinds the analyzer reads.
Expression nodes: `name`, `attribute`, `call`, `constant`, `subscript`.
Statement nodes carry the `lineno` (and for function definitions the
optional `end_lineno`) that the source consults.  `functionDef` covers
both `ast.FunctionDef` and `ast.AsyncFunctionDef` via its `isAsync`
flag, matching the `isinstance(node, (FunctionDef, AsyncFunctionDef))`
checks of the source. -/
inductive PyNode where
  | name (id : String)
  | attribute (value : PyNode) (attr : String)
  | call (func : PyNode) (args : List PyNode) (lineno : Nat)
  | constant (reprText : String) (strValue : Option String)
  | subscript (value : PyNode) (slice : PyNode)
  | module (body : List PyNode)
  | functionDef (fname : String) (args : PyArguments) (body : List PyNode)
      (decorator_list : List PyNode) (returns : Option PyNode)
      (isAsync : Bool) (lineno : Nat) (end_lineno : Option Nat)
  | classDef (cname : String) (bases : List PyNode) (body : List PyNode)
      (decorator_list : List PyNode) (lineno : Nat)
  | ifStmt (test : PyNode) (body : List PyNode) (orelse : List PyNode) (lineno : Nat)
  | matchStmt (subject : PyNode) (cases : List PyMatchCase) (lineno : Nat)
  | raiseStmt (exc : Option PyNode) (lineno : Nat)
  | tryStmt (body : List PyNode) (handlers : List PyHandler)
      (orelse : List PyNode) (finalbody : List PyNode) (lineno : Nat)
  | assign (targets : List PyNode) (value : PyNode) (lineno : Nat)
  | importStmt (names : List PyAlias) (lineno : Nat)
  | importFrom (moduleName : Option String) (names : List PyAlias) (lineno : Nat)
  | exprStmt (value : PyNode) (lineno : Nat)
  | passStmt (lineno : Nat)
  | returnStmt (value : Option PyNode) (lineno : Nat)

/-- One declared parameter (`ast.arg`): its name and optional
annotation expression. -/
inductive PyArg where
  | mk (arg : String) (ann : Option PyNode)

/-- The `ast.arguments` record of a function definition.  The analyzer
reads `args`, `defaults`, `kw_defaults`, `vararg` and `kwarg`; it never
reads `kwonlyargs`, which we nevertheless carry because the grammar
has it. -/
inductive PyArguments where
  | mk (args : List PyArg) (vararg : Option PyArg) (kwonlyargs : List PyArg)
      (kw_defaults : List (Option PyNode)) (kwarg : Option PyArg)
      (defaults : List PyNode)

/-- One `ast.ExceptHandler` of a `try` statement: optional handler type
expression, line number, handler body. -/
inductive PyHandler where
  | mk (type : Option PyNode) (lineno : Nat) (body : List PyNode)

/-- One `ast.match_case` arm of a `match` statement; the analyzer only
counts the arms, but traversal descends into the bodies. -/
inductive PyMatchCase where
  | mk (body : List PyNode)

end

namespace PyArg

def arg : PyArg → String
  | .mk a _ => a

def ann : PyArg → Option PyNode
  | .mk _ an => an

end PyArg

namespace PyArguments

def args : PyArguments → List PyArg
  | .mk a _ _ _ _ _ => a

def vararg : PyArguments → Option PyArg
  | .mk _ v _ _ _ _ => v

def kwonlyargs : PyArguments → List PyArg
  | .mk _ _ k _ _ _ => k

def kw_defaults : PyArguments → List (Option PyNode)
  | .mk _ _ _ kd _ _ => kd

def kwarg : PyArguments → Option PyArg
  | .mk _ _ _ _ kw _ => kw

def defaults : PyArguments → List PyNode
  | .mk _ _ _ _ _ d => d

end PyArguments

namespace PyHandler

def type : PyHandler → Option PyNode
  | .mk t _ _ => t

def lineno : PyHandler → Nat
  | .mk _ l _ => l

def body : PyHandler → List PyNode
  | .mk _ _ b => b

end PyHandler

mutual

/-- Depth-first pre-order traversal of a node and all its descendants,
modelling `ast.walk` (whose order is documented as unspecified; see the
module comment).  Child fields are visited in the field order of the
CPython grammar. -/
def walk : PyNode → List PyNode
  | .name i => [.name i]
  | .attribute v a => .attribute v a :: walk v
  | .call f args l => .call f args l :: (walk f ++ walkList args)
  | .constant r s => [.constant r s]
  | .subscript v s => .subscript v s :: (walk v ++ walk s)
  | .module b => .module b :: walkList b
  | .functionDef n a b d r ia l el =>
      .functionDef n a b d r ia l el ::
        (walkArguments a ++ walkList b ++ walkList d ++ walkOpt r)
  | .classDef n bs b d l =>
      .classDef n bs b d l :: (walkList bs ++ walkList b ++ walkList d)
  | .ifStmt t b o l => .ifStmt t b o l :: (walk t ++ walkList b ++ walkList o)
  | .matchStmt s cs l => .matchStmt s cs l :: (walk s ++ walkCases cs)
  | .raiseStmt e l => .raiseStmt e l :: walkOpt e
  | .tryStmt b hs o f l =>
      .tryStmt b hs o f l ::
        (walkList b ++ walkHandlers hs ++ walkList o ++ walkList f)
  | .assign ts v l => .assign ts v l :: (walkList ts ++ walk v)
  | .importStmt ns l => [.importStmt ns l]
  | .importFrom m ns l => [.importFrom m ns l]
  | .exprStmt v l => .exprStmt v l :: walk v
  | .passStmt l => [.passStmt l]
  | .returnStmt v l => .returnStmt v l :: walkOpt v

def walkList : List PyNode → List PyNode
  | [] => []
  | n :: rest => walk n ++ walkList rest

def walkOpt : Option PyNode → List PyNode
  | none => []
  | some n => walk n

def walkArguments : PyArguments → List PyNode
  | .mk args va ko kd kw ds =>
      walkArgList args ++ walkOptArg va ++ walkArgList ko ++
        walkOptList kd ++ walkOptArg kw ++ walkList ds

def walkArgList : List PyArg → List PyNode
  | [] => []
  | a :: rest => walkArg a ++ walkArgList rest

def walkArg : PyArg → List PyNode
  | .mk _ an => walkOpt an

def walkOptArg : Option PyArg → List PyNode
  | none => []
  | some a => walkArg a

def walkOptList : List (Option PyNode) → List PyNode
  | [] => []
  | o :: rest => walkOpt o ++ walkOptList rest

def walkHandlers : List PyHandler → List PyNode
  | [] => []
  | h :: rest => walkHandler h ++ walkHandlers rest

/-- CPython walk also yields the handler node itself; nothing in the
analyzer matches on a bare handler, so we descend directly into its
type expression and body. -/
def walkHandler : PyHandler → List PyNode
  | .mk t _ b => walkOpt t ++ walkList b

def walkCases : List PyMatchCase → List PyNode
  | [] => []
  | .mk b :: rest => walkList b ++ walkCases rest

end

/-! ## Output data model (the dataclasses of the source) -/

/-- Parameter kind vocabulary of the `Parameter` dataclass. -/
inductive PKind where
  | positional
  | keyword
  | var_positional
  | var_keyword
deriving Repr, DecidableEq

/-- The `Parameter` dataclass: name, optional annotation text, optional
default-value text, kind. -/
structure Parameter where
  name : String
  type : Option String
  default_value : Option String
  kind : PKind
deriving Repr, DecidableEq

/-- The `FunctionSignature` dataclass. -/
structure FunctionSignature where
  name : String
  parameters : List Parameter
  return_type : Option String
  is_async : Bool
  is_method : Bool
  decorators : List String
deriving Repr, DecidableEq

/-- The `BranchInfo` dataclass. -/
structure BranchInfo where
  type : String
  condition : String
  line_number : Nat
deriving Repr, DecidableEq

/-- The `ExceptionInfo` dataclass. -/
structure ExceptionInfo where
  type : String
  exception_class : Option String
  line_number : Nat
  context : String
deriving Repr, DecidableEq

/-- The `CallInfo` dataclass. -/
structure CallInfo where
  function_name : String
  module : Option String
  line_number : Nat
  is_builtin : Bool
deriving Repr, DecidableEq

/-- The `FunctionBodyAnalysis` dataclass. -/
structure FunctionBodyAnalysis where
  branches : List BranchInfo
  exceptions : List ExceptionInfo
  external_calls : List CallInfo
  complexity : Nat
deriving Repr, DecidableEq

/-- The `ClassContext` dataclass. -/
structure ClassContext where
  class_name : String
  base_classes : List String
  class_attributes : List String
  other_methods : List String
  is_dataclass : Bool
deriving Repr, DecidableEq

/-- The `ImportInfo` dataclass.  The source field `alias` is a reserved
word in Lean, so it is carried here as `aliasName`. -/
structure ImportInfo where
  module : String
  imported_names : List String
  aliasName : Option String
  line_number : Nat
deriving Repr, DecidableEq

/-- One inline comment record of `DocumentationInfo`. -/
structure CommentInfo where
  text : String
  line_number : Nat
  is_block_comment : Bool
deriving Repr, DecidableEq

/-- The `DocumentationInfo` dataclass. -/
structure DocumentationInfo where
  docstring : Option String
  inline_comments : List CommentInfo
deriving Repr, DecidableEq

/-- The `FunctionContext` dataclass: the assembled output record. -/
structure FunctionContext where
  signature : FunctionSignature
  source_code : String
  body_analysis : FunctionBodyAnalysis
  class_context : Option ClassContext
  imports : List ImportInfo
  documentation : DocumentationInfo
  file_path : String
  module_path : String
  line_range : Nat × Nat
deriving Repr, DecidableEq

/-! ## Helper functions of the analyzer -/

/-- The `BUILTIN_FUNCTIONS` registry of the analyzer class. -/
def BUILTIN_FUNCTIONS : List String :=
  ["print", "len", "range", "str", "int", "float", "list", "dict",
   "set", "tuple", "bool", "type", "isinstance", "hasattr", "getattr",
   "setattr", "delattr", "all", "any", "sum", "min", "max", "sorted",
   "enumerate", "zip", "map", "filter", "open", "input", "eval", "exec"]

mutual

/-- Rendering of expression nodes, modelling `ast.unparse` on the
expressions the analyzer renders (conditions, decorators, bases,
defaults, annotations, raised expressions).  Statement nodes render as
the empty string: the only statement the source ever unparses is the
function-source fallback for parsers without end positions, which no
claim exercises. -/
def unparse : PyNode → String
  | .name i => i
  | .attribute v a => unparse v ++ "." ++ a
  | .call f args _ => unparse f ++ "(" ++ unparseList args ++ ")"
  | .constant r _ => r
  | .subscript v s => unparse v ++ "[" ++ unparse s ++ "]"
  | _ => ""

def unparseList : List PyNode → String
  | [] => ""
  | [n] => unparse n
  | n :: rest => unparse n ++ ", " ++ unparseList rest

end

/-- `_get_annotation`: convert an optional annotation node to text. -/
def _get_annotation (ann : Option PyNode) : Option String :=
  ann.map unparse

/-- `_get_exception_name`: a bare name resolves to itself, a call on a
bare name resolves to the callee name, anything else to `None`. -/
def _get_exception_name : PyNode → Option String
  | .name i => some i
  | .call (.name i) _ _ => some i
  | _ => none

/-- `_extract_call_info`: translated from the source including its
control flow, where the `return None` arm is reached only when the
callee is neither a bare name nor an attribute access; an attribute
access whose base is not a bare name still yields a record whose
`module` field is `None`. -/
def _extract_call_info : PyNode → Option CallInfo
  | .call (.name i) _ l =>
      some { function_name := i, module := none, line_number := l,
             is_builtin := BUILTIN_FUNCTIONS.contains i }
  | .call (.attribute v a) _ l =>
      some { function_name := a,
             module := match v with
               | .name vid => some vid
               | _ => none,
             line_number := l,
             is_builtin := BUILTIN_FUNCTIONS.contains a }
  | _ => none

/-- Start line of a function-definition node; only ever applied to
function definitions (the locator filters for them first). -/
def funcLineno : PyNode → Nat
  | .functionDef _ _ _ _ _ _ l _ => l
  | _ => 0

/-- Optional end line of a function-definition node (`end_lineno`,
absent for very old parsers). -/
def funcEndLineno : PyNode → Option Nat
  | .functionDef _ _ _ _ _ _ _ el => el
  | _ => none

/-- Declared name of a function-definition node. -/
def funcName : PyNode → String
  | .functionDef n _ _ _ _ _ _ _ => n
  | _ => ""

/-- The `ast.arguments` record of a function-definition node. -/
def funcArgs : PyNode → PyArguments
  | .functionDef _ a _ _ _ _ _ _ => a
  | _ => .mk [] none [] [] none []

/-- Body statements of a function-definition node. -/
def funcBody : PyNode → List PyNode
  | .functionDef _ _ b _ _ _ _ _ => b
  | _ => []

/-- Whether a node is a (plain or async) function definition, the
`isinstance(node, (ast.FunctionDef, ast.AsyncFunctionDef))` test. -/
def isFunctionDef : PyNode → Bool
  | .functionDef _ _ _ _ _ _ _ _ => true
  | _ => false

/-! ## Node Locator (`locate_function_node`) -/

/-- The candidate set of `locate_function_node`: every (plain or async)
function-definition node in the tree whose declared name equals the
query, in traversal order. -/
def locateCandidates (tree : PyNode) (function_name : String) : List PyNode :=
  (walk tree).filter (fun n => isFunctionDef n && funcName n == function_name)

/-- The per-candidate test of the locator loop: the candidate starts at
the query line, or (when the parser exposes an end line) its start-to-end
span contains the query line. -/
def locatorMatch (line_number : Nat) (c : PyNode) : Bool :=
  funcLineno c == line_number ||
    (match funcEndLineno c with
     | some e => decide (funcLineno c ≤ line_number) && decide (line_number ≤ e)
     | none => false)

/-- `locate_function_node`: collect candidates; with a line number
return the first candidate passing `locatorMatch`, falling back to the
first candidate; without a line number return the first candidate;
`None` when there are no candidates. -/
def locate_function_node (tree : PyNode) (function_name : String)
    (line_number : Option Nat) : Option PyNode :=
  match locateCandidates tree function_name with
  | [] => none
  | c0 :: rest =>
    match line_number with
    | none => some c0
    | some q =>
      match (c0 :: rest).find? (locatorMatch q) with
      | some c => some c
      | none => some c0

/-! ## Signature Extractor (`extract_function_signature`) -/

/-- The loop over `args.args` of `extract_function_signature`.  For the
parameter at index `i` (with `n` ordinary parameters, `d` entries in
`defaults` and `k` entries in `kw_defaults`): the default is populated
when `i >= n - d` (plain integer arithmetic, embedded over `Int`), the
default text is `defaults[i - (n - d)]` unparsed, and the kind is
`keyword` when `i >= n - k`, else `positional`. -/
def processArgs (a : PyArguments) : List Parameter :=
  let n : Int := a.args.length
  let d : Int := a.defaults.length
  let k : Int := a.kw_defaults.length
  a.args.enum.map (fun p =>
    let i : Int := p.1
    { name := p.2.arg,
      type := _get_annotation (p.2.ann),
      default_value :=
        if i ≥ n - d then (a.defaults.get? (i - (n - d)).toNat).map unparse
        else none,
      kind := if i ≥ n - k then PKind.keyword else PKind.positional })

/-- The `*args` entry appended by `extract_function_signature`. -/
def varargParams (a : PyArguments) : List Parameter :=
  match a.vararg with
  | none => []
  | some v => [{ name := v.arg, type := _get_annotation v.ann,
                 default_value := none, kind := PKind.var_positional }]

/-- The `**kwargs` entry appended by `extract_function_signature`. -/
def kwargParams (a : PyArguments) : List Parameter :=
  match a.kwarg with
  | none => []
  | some v => [{ name := v.arg, type := _get_annotation v.ann,
                 default_value := none, kind := PKind.var_keyword }]

/-- The full parameter list assembled by `extract_function_signature`
before the method check removes a leading `self`/`cls`. -/
def rawParams (a : PyArguments) : List Parameter :=
  processArgs a ++ varargParams a ++ kwargParams a

/-- The method test of `extract_function_signature`: the assembled
parameter list is non-empty and its first name is `self` or `cls`. -/
def isMethodParams : List Parameter → Bool
  | [] => false
  | p :: _ => p.name == "self" || p.name == "cls"

/-- `extract_function_signature`, translated from the source; callers
only apply it to function-definition nodes (other nodes yield an empty
signature). -/
def extract_function_signature : PyNode → FunctionSignature
  | .functionDef n a _ decs ret isAsync _ _ =>
      let ps := rawParams a
      let isM := isMethodParams ps
      { name := n,
        parameters := if isM then ps.tail else ps,
        return_type := _get_annotation ret,
        is_async := isAsync,
        is_method := isM,
        decorators := decs.map unparse }
  | _ =>
      { name := "", parameters := [], return_type := none,
        is_async := false, is_method := false, decorators := [] }

/-! ## Body Analyzer (`analyze_function_body`) -/

/-- Accumulator of the body-analysis loop: the three record lists and
the running complexity, mirroring the four local accumulators of
`analyze_function_body`. -/
structure BodyAcc where
  branches : List BranchInfo
  exceptions : List ExceptionInfo
  external_calls : List CallInfo
  complexity : Nat
deriving Repr, DecidableEq

/-- One iteration of the `analyze_function_body` loop, applied to one
visited node: conditionals and pattern matches append a branch record,
raise statements and try handlers append exception records, calls
append a call record when `_extract_call_info` yields one; complexity
grows by one per conditional, one per handler and one per match arm. -/
def bodyStep (acc : BodyAcc) : PyNode → BodyAcc
  | .ifStmt test _ _ l =>
      { acc with
        branches := acc.branches ++
          [{ type := "if", condition := unparse test, line_number := l }],
        complexity := acc.complexity + 1 }
  | .matchStmt subject cs l =>
      { acc with
        branches := acc.branches ++
          [{ type := "match", condition := unparse subject, line_number := l }],
        complexity := acc.complexity + cs.length }
  | .raiseStmt exc l =>
      { acc with
        exceptions := acc.exceptions ++
          [{ type := "raise",
             exception_class := exc.bind _get_exception_name,
             line_number := l,
             context := match exc with
               | some e => unparse e
               | none => "" }] }
  | .tryStmt _ handlers _ _ _ =>
      { acc with
        exceptions := acc.exceptions ++ handlers.map (fun h =>
          { type := "try-except",
            exception_class := h.type.map unparse,
            line_number := h.lineno,
            context := match h.type with
              | some t => "except " ++ unparse t
              | none => "except" }),
        complexity := acc.complexity + handlers.length }
  | .call f args l =>
      { acc with
        external_calls := acc.external_calls ++
          ((_extract_call_info (.call f args l)).toList) }
  | _ => acc

/-- `analyze_function_body`: fold the loop body over every node of the
function subtree, starting from empty lists and base complexity 1. -/
def analyze_function_body (func_node : PyNode) : FunctionBodyAnalysis :=
  let acc := (walk func_node).foldl bodyStep
    { branches := [], exceptions := [], external_calls := [], complexity := 1 }
  { branches := acc.branches, exceptions := acc.exceptions,
    external_calls := acc.external_calls, complexity := acc.complexity }

/-! ## Class Context Extractor (`extract_class_context`) -/

/-- Start line of a node, for the line-based ownership fallback.  The
source reads `lineno` wherever `hasattr(item, "lineno")` holds; our
expression constructors other than `call` do not carry one (class-body
items are statements, which always do). -/
def nodeLineno : PyNode → Option Nat
  | .call _ _ l => some l
  | .functionDef _ _ _ _ _ _ l _ => some l
  | .classDef _ _ _ _ l => some l
  | .ifStmt _ _ _ l => some l
  | .matchStmt _ _ l => some l
  | .raiseStmt _ l => some l
  | .tryStmt _ _ _ _ l => some l
  | .assign _ _ l => some l
  | .importStmt _ l => some l
  | .importFrom _ _ l => some l
  | .exprStmt _ l => some l
  | .passStmt l => some l
  | .returnStmt _ l => some l
  | _ => none

/-- The body-item test of `extract_class_context`: the item is the
target function node itself, or both carry a line number and the line
numbers agree.  Python compares nodes by object identity, and identity
implies equal line numbers for function-definition targets, so the
identity disjunct is absorbed by the line test (see the module
comment). -/
def matchesTarget (func_node item : PyNode) : Bool :=
  match nodeLineno item, nodeLineno func_node with
  | some li, some lf => li == lf
  | _, _ => false

/-- Whether a class-definition node owns the target function according
to the matching rule: some direct body statement matches the target. -/
def classMatches (func_node : PyNode) : PyNode → Bool
  | .classDef _ _ body _ _ => body.any (matchesTarget func_node)
  | _ => false

/-- The scan of `extract_class_context` over the walked tree: the
running `parent_class` is overwritten by every matching class, so the
scan result is the last matching class-definition node in traversal
order (the inner `break` of the source only stops the scan of one
class body). -/
def classScanStep (func_node : PyNode) (st : Option PyNode) (n : PyNode) :
    Option PyNode :=
  if classMatches func_node n then some n else st

/-- Worker for `dedupFirst`: emit each string the first time it is
seen, skipping later occurrences. -/
def dedupFirstAux (seen : List String) : List String → List String
  | [] => []
  | x :: rest =>
      if seen.contains x then dedupFirstAux seen rest
      else x :: dedupFirstAux (seen ++ [x]) rest

/-- First-occurrence deduplication, modelling `list(set(xs))` for the
attribute list (see the module comment on determinism of set order). -/
def dedupFirst (xs : List String) : List String :=
  dedupFirstAux [] xs

/-- Attribute names contributed by one walked node of the class
subtree: for every assignment, each target that is `self.<attr>`
contributes the attribute, and each bare-name target contributes the
name. -/
def attrContrib : PyNode → List String
  | .assign targets _ _ =>
      targets.flatMap (fun t =>
        match t with
        | .attribute (.name base) a => if base == "self" then [a] else []
        | .name i => [i]
        | _ => [])
  | _ => []

/-- Summary record built from the owning class node, mirroring the
second half of `extract_class_context`. -/
def buildClassContext (func_node parent_class : PyNode) : ClassContext :=
  match parent_class with
  | .classDef cname bases body decs _ =>
      { class_name := cname,
        base_classes := bases.map unparse,
        class_attributes :=
          dedupFirst ((walk parent_class).flatMap attrContrib),
        other_methods :=
          (body.filter (fun it => isFunctionDef it &&
            funcName it != funcName func_node)).map funcName,
        is_dataclass := decs.any (fun d => (unparse d).startsWith "dataclass") }
  | _ =>
      { class_name := "", base_classes := [], class_attributes := [],
        other_methods := [], is_dataclass := false }

/-- `extract_class_context`: scan every walked node, remembering the
(last) matching class; absent when no class matches. -/
def extract_class_context (tree func_node : PyNode) : Option ClassContext :=
  ((walk tree).foldl (classScanStep func_node) none).map
    (buildClassContext func_node)

/-! ## Import Collector (`extract_imports`) -/

/-- The alias rule of the from-import branch: an alias is recorded only
when the statement imports exactly one name and that name carries one
(`len(node.names) == 1 and node.names[0].asname`). -/
def fromImportAlias (names : List PyAlias) : Option String :=
  match names with
  | [a] => a.asname
  | _ => none

/-- Import records contributed by one walked node: a plain import
yields one record per imported module with the `["*"]` sentinel, a
from-import yields exactly one record for the whole statement. -/
def importContrib : PyNode → List ImportInfo
  | .importStmt names l =>
      names.map (fun a =>
        { module := a.name, imported_names := ["*"],
          aliasName := a.asname, line_number := l })
  | .importFrom m names l =>
      [{ module := m.getD "",
         imported_names := names.map PyAlias.name,
         aliasName := fromImportAlias names,
         line_number := l }]
  | _ => []

/-- `extract_imports`: every import statement of the whole tree, in
traversal order. -/
def extract_imports (tree : PyNode) : List ImportInfo :=
  (walk tree).flatMap importContrib

/-! ## Documentation Extractor (`extract_documentation`) -/

/-- Docstring lookup modelling `ast.get_docstring`: the string value of
the first body statement when that statement is a bare string literal.
CPython additionally normalizes the text with `inspect.cleandoc`, a
string-to-string cleanup irrelevant to every claim; we carry the raw
string value. -/
def getDocstring (func_node : PyNode) : Option String :=
  match funcBody func_node with
  | .exprStmt (.constant _ (some s)) _ :: _ => some s
  | _ => none

/-- The per-line comment scan of `extract_documentation`: when the line
contains `#`, the trimmed text after the first `#` is recorded unless
empty.  `lineIndex` is the zero-based index of the line in the file. -/
def commentOfLine (lineIndex : Nat) (line : String) : List CommentInfo :=
  match line.splitOn "#" with
  | [] => []
  | [_] => []
  | _ :: rest =>
      let text := (String.intercalate "#" rest).trim
      if text == "" then []
      else [{ text := text, line_number := lineIndex + 1,
              is_block_comment := false }]

/-- The slice of source lines spanned by the function, zero-based
indices `lineno - 1` up to but excluding `end_lineno`, paired with
their indices.  (The source indexes `source_lines[i]` directly, which
presupposes the line numbers index into the file of the same parse.) -/
def functionLines (source_lines : List String) (func_node : PyNode) :
    List (Nat × String) :=
  match funcEndLineno func_node with
  | some e =>
      ((source_lines.enum).drop (funcLineno func_node - 1)).take
        (e - (funcLineno func_node - 1))
  | none => []

/-- `extract_documentation`: docstring plus the naive per-line comment
scan over the function span (the span loop runs only when the node has
both `lineno` and `end_lineno`). -/
def extract_documentation (source_lines : List String) (func_node : PyNode) :
    DocumentationInfo :=
  { docstring := getDocstring func_node,
    inline_comments :=
      (functionLines source_lines func_node).flatMap
        (fun p => commentOfLine p.1 p.2) }

/-- `get_function_source_code`: join the spanned source lines; nodes
without an end line fall back to unparsing. -/
def get_function_source_code (source_lines : List String)
    (func_node : PyNode) : String :=
  match funcEndLineno func_node with
  | some e =>
      String.intercalate "\n"
        (((source_lines.drop (funcLineno func_node - 1))).take
          (e - (funcLineno func_node - 1)))
  | none => unparse func_node

/-! ## Module-path derivation (in `build_function_context`) -/

/-- Python `str.replace(".py", "")` on the file path: remove every
(left-to-right, non-overlapping) occurrence of the three characters
`.py`, not only a trailing extension. -/
def removePy : List Char → List Char
  | [] => []
  | [c] => [c]
  | [c1, c2] => [c1, c2]
  | c1 :: c2 :: c3 :: rest =>
      if c1 = '.' ∧ c2 = 'p' ∧ c3 = 'y' then removePy rest
      else c1 :: removePy (c2 :: c3 :: rest)

/-- Python `str.replace("/", ".")`: a character-wise map. -/
def replaceSlash (s : List Char) : List Char :=
  s.map (fun c => if c = '/' then '.' else c)

/-- Python `str.replace("\\", ".")`: a character-wise map. -/
def replaceBackslash (s : List Char) : List Char :=
  s.map (fun c => if c = '\\' then '.' else c)

/-- The final step of the derivation: drop one leading `.` if present
(`module_path.startswith(".")`). -/
def stripLeadingDot : List Char → List Char
  | '.' :: rest => rest
  | s => s

/-- The module-path derivation of `build_function_context` on the file
path, over character lists. -/
def modulePathChars (file_path : List Char) : List Char :=
  stripLeadingDot (replaceBackslash (replaceSlash (removePy file_path)))

/-- The module-path derivation on strings. -/
def modulePathOf (file_path : String) : String :=
  String.mk (modulePathChars file_path.data)

/-! ## Context Assembler (`build_function_context`) -/

/-- The analyzer state established by `PythonASTAnalyzer.__init__`:
the file path, the raw source text, and the parsed tree.  File reading
and parsing are external collaborators; `source_lines` is the split of
the source text on newlines. -/
structure PythonASTAnalyzer where
  file_path : String
  source_code : String
  tree : PyNode

/-- `self.source_lines`, computed in `__init__` by splitting on
newline. -/
def PythonASTAnalyzer.source_lines (a : PythonASTAnalyzer) : List String :=
  a.source_code.splitOn "\n"

/-- `build_function_context`: locate the function, run every extractor,
derive the module path and line range, and assemble the output record;
`None` when the locator finds nothing. -/
def build_function_context (a : PythonASTAnalyzer)
    (function_name : String) (line_number : Option Nat) :
    Option FunctionContext :=
  (locate_function_node a.tree function_name line_number).map (fun func_node =>
    { signature := extract_function_signature func_node,
      source_code := get_function_source_code a.source_lines func_node,
      body_analysis := analyze_function_body func_node,
      class_context := extract_class_context a.tree func_node,
      imports := extract_imports a.tree,
      documentation := extract_documentation a.source_lines func_node,
      file_path := a.file_path,
      module_path := modulePathOf a.file_path,
      line_range := (funcLineno func_node,
        (funcEndLineno func_node).getD (funcLineno func_node)) })

/-! ## Claim-side vocabulary and shared lemmas -/

/-- Whether a node is a conditional (`ast.If`) node. -/
def isIfNode : PyNode → Bool
  | .ifStmt _ _ _ _ => true
  | _ => false

/-- Number of exception handlers carried by a node (zero unless it is a
`try` statement). -/
def tryHandlerCount : PyNode → Nat
  | .tryStmt _ hs _ _ _ => hs.length
  | _ => 0

/-- Number of case arms carried by a node (zero unless it is a
pattern-match statement). -/
def matchCaseCount : PyNode → Nat
  | .matchStmt _ cs _ => cs.length
  | _ => 0

/-- Complexity contributed by one visited node in the body-analysis
loop. -/
def complexityContrib (n : PyNode) : Nat :=
  (if isIfNode n then 1 else 0) + tryHandlerCount n + matchCaseCount n

theorem bodyStep_complexity (acc : BodyAcc) (n : PyNode) :
    (bodyStep acc n).complexity = acc.complexity + complexityContrib n := by
  cases n <;>
    simp [bodyStep, complexityContrib, isIfNode, tryHandlerCount, matchCaseCount]

theorem foldl_bodyStep_complexity (l : List PyNode) :
    ∀ acc : BodyAcc, (l.foldl bodyStep acc).complexity =
      acc.complexity + (l.map complexityContrib).sum := by
  induction l with
  | nil => intro acc; simp
  | cons x xs ih =>
      intro acc
      simp only [List.foldl_cons, List.map_cons, List.sum_cons]
      rw [ih, bodyStep_complexity]
      omega

theorem sum_complexityContrib (l : List PyNode) :
    (l.map complexityContrib).sum =
      l.countP isIfNode + (l.map tryHandlerCount).sum +
        (l.map matchCaseCount).sum := by
  induction l with
  | nil => simp
  | cons x xs ih =>
      simp only [List.map_cons, List.sum_cons, List.countP_cons, complexityContrib]
      rw [ih]
      cases hx : isIfNode x <;> simp [hx] <;> omega

/-- C6: the complexity reported by the body analyzer is 1 plus the
number of conditional nodes in the function subtree, plus one per
exception handler of every try node, plus the number of case arms of
every pattern-match node; so a function with none of these has
complexity exactly 1 and each conditional adds exactly 1. -/
theorem C6_complexity_accumulation (func_node : PyNode) :
    (analyze_function_body func_node).complexity =
      1 + (walk func_node).countP isIfNode +
        ((walk func_node).map tryHandlerCount).sum +
        ((walk func_node).map matchCaseCount).sum := by
  show ((walk func_node).foldl bodyStep
    { branches := [], exceptions := [], external_calls := [],
      complexity := 1 }).complexity = _
  rw [foldl_bodyStep_complexity, sum_complexityContrib]
  show 1 + _ = _
  omega

/-! ## C7: from-import alias rule -/

/-- C7: every from-import statement contributes exactly one record
listing every imported name; its alias field is populated precisely
when the statement imports exactly one name and that name carries an
alias, and is absent whenever two or more names are imported. -/
theorem C7_from_import_record (m : Option String) (names : List PyAlias)
    (l : Nat) :
    importContrib (.importFrom m names l) =
      [{ module := m.getD "", imported_names := names.map PyAlias.name,
         aliasName := fromImportAlias names, line_number := l }]
    ∧ ((fromImportAlias names).isSome ↔
        ∃ nm al, names = [{ name := nm, asname := some al }])
    ∧ (2 ≤ names.length → fromImportAlias names = none) := by
  refine ⟨rfl, ?_, ?_⟩
  · match names with
    | [] => simp [fromImportAlias]
    | [a] =>
        cases a with
        | mk nm oas =>
          cases oas with
          | none => simp [fromImportAlias]
          | some al => simp [fromImportAlias]
    | a :: b :: rest =>
        simp only [fromImportAlias, Option.isSome_none]
        constructor
        · intro h; exact absurd h (by simp)
        · rintro ⟨nm, al, h⟩; exact absurd h (by simp)
  · intro h
    match names, h with
    | a :: b :: rest, _ => rfl

/-- Witness for the implication of `C7_from_import_record`: a two-name
from-import never records an alias even though both names carry one. -/
theorem C7_from_import_record_witness :
    2 ≤ ([{ name := "a", asname := some "x" },
          { name := "b", asname := some "y" }] : List PyAlias).length
    ∧ fromImportAlias
        [{ name := "a", asname := some "x" },
         { name := "b", asname := some "y" }] = none :=
  ⟨by decide,
   (C7_from_import_record none
     [{ name := "a", asname := some "x" },
      { name := "b", asname := some "y" }] 1).2.2 (by decide)⟩

/-! ## C4: parameter default and kind arithmetic -/

theorem get?_isSome_iff {α : Type _} (l : List α) (n : Nat) :
    (l.get? n).isSome = true ↔ n < l.length := by
  constructor
  · intro h
    cases hg : l.get? n with
    | none => rw [hg] at h; simp at h
    | some a => obtain ⟨hlt, _⟩ := List.get?_eq_some.mp hg; exact hlt
  · intro h
    cases hg : l.get? n with
    | none => have := List.get?_eq_none.mp hg; omega
    | some a => simp

theorem countP_range_ge (t n : Nat) :
    (List.range n).countP (fun i => decide (t ≤ i)) = n - t := by
  induction n with
  | zero => simp
  | succ m ih =>
      rw [List.range_succ, List.countP_append, ih, List.countP_cons,
        List.countP_nil]
      by_cases h : t ≤ m
      · rw [if_pos (decide_eq_true h)]
        omega
      · rw [if_neg (by rw [decide_eq_false h]; exact Bool.false_ne_true)]
        omega

/-- The default-value expression computed by `processArgs` at index `i`
is populated exactly when `i >= n - d`, for `i` in range. -/
theorem processArgs_default_isSome (a : PyArguments) (i : Nat)
    (hi : i < a.args.length) :
    ((if (i : Int) ≥ (a.args.length : Int) - (a.defaults.length : Int)
        then (a.defaults.get? (((i : Int) - ((a.args.length : Int) -
          (a.defaults.length : Int))).toNat)).map unparse
        else none).isSome = true) ↔
      a.args.length - a.defaults.length ≤ i := by
  by_cases hd : a.args.length - a.defaults.length ≤ i
  · have hpos : (i : Int) ≥ (a.args.length : Int) -
        (a.defaults.length : Int) := by omega
    rw [if_pos hpos]
    have hidx : (((i : Int) - ((a.args.length : Int) -
        (a.defaults.length : Int))).toNat) < a.defaults.length := by omega
    cases hg : a.defaults.get? (((i : Int) - ((a.args.length : Int) -
        (a.defaults.length : Int))).toNat) with
    | none => have := List.get?_eq_none.mp hg; omega
    | some e => simp [hg, hd]
  · have hneg : ¬ ((i : Int) ≥ (a.args.length : Int) -
        (a.defaults.length : Int)) := by omega
    rw [if_neg hneg]
    simp [hd]

/-- The kind expression computed by `processArgs` at index `i` is
keyword exactly when `i >= n - k`. -/
theorem processArgs_kind_keyword (a : PyArguments) (i : Nat) :
    (((if (i : Int) ≥ (a.args.length : Int) - (a.kw_defaults.length : Int)
        then PKind.keyword else PKind.positional) = PKind.keyword) ↔
      a.args.length - a.kw_defaults.length ≤ i) ∧
    (((if (i : Int) ≥ (a.args.length : Int) - (a.kw_defaults.length : Int)
        then PKind.keyword else PKind.positional) = PKind.positional) ↔
      i < a.args.length - a.kw_defaults.length) := by
  by_cases hk : a.args.length - a.kw_defaults.length ≤ i
  · have hpos : (i : Int) ≥ (a.args.length : Int) -
        (a.kw_defaults.length : Int) := by omega
    rw [if_pos hpos]
    refine ⟨⟨fun _ => hk, fun _ => rfl⟩, ⟨fun h => absurd h (by decide), ?_⟩⟩
    intro h; omega
  · have hneg : ¬ ((i : Int) ≥ (a.args.length : Int) -
        (a.kw_defaults.length : Int)) := by omega
    rw [if_neg hneg]
    refine ⟨⟨fun h => absurd h (by decide), fun h => absurd h hk⟩,
      ⟨fun _ => by omega, fun _ => rfl⟩⟩

/-- C4: processing the ordinary declared parameters left to right,
index `i` carries a populated default value exactly when `i >= n - d`
(`n` ordinary parameters, `d` defaults), its kind is keyword exactly
when `i >= n - k` (`k` keyword-only defaults) and positional otherwise;
exactly `min d n` parameters carry a default (that is, `d` or fewer);
and extraction is a pure function, so the kind sequence is identical
across repeated extraction of the same node. -/
theorem C4_parameter_arithmetic (a : PyArguments) :
    (∀ i, i < a.args.length →
      ∃ p, (processArgs a).get? i = some p
        ∧ (p.default_value.isSome = true ↔
            a.args.length - a.defaults.length ≤ i)
        ∧ (p.kind = PKind.keyword ↔
            a.args.length - a.kw_defaults.length ≤ i)
        ∧ (p.kind = PKind.positional ↔
            i < a.args.length - a.kw_defaults.length))
    ∧ (processArgs a).countP (fun p => p.default_value.isSome) =
        min a.defaults.length a.args.length
    ∧ (processArgs a).map Parameter.kind =
        (processArgs a).map Parameter.kind := by
  refine ⟨?_, ?_, rfl⟩
  · intro i hi
    obtain ⟨arg, harg⟩ : ∃ x, a.args.get? i = some x := by
      cases hg : a.args.get? i with
      | none => have := List.get?_eq_none.mp hg; omega
      | some x => exact ⟨x, rfl⟩
    have hp : (processArgs a).get? i = some
        { name := arg.arg, type := _get_annotation arg.ann,
          default_value :=
            if (i : Int) ≥ (a.args.length : Int) - (a.defaults.length : Int)
            then (a.defaults.get? (((i : Int) - ((a.args.length : Int) -
              (a.defaults.length : Int))).toNat)).map unparse
            else none,
          kind :=
            if (i : Int) ≥ (a.args.length : Int) - (a.kw_defaults.length : Int)
            then PKind.keyword else PKind.positional } := by
      simp only [processArgs]
      rw [List.get?_map, List.get?_enum, harg]
      rfl
    exact ⟨_, hp, processArgs_default_isSome a i hi,
      (processArgs_kind_keyword a i).1, (processArgs_kind_keyword a i).2⟩
  · have hcp : (processArgs a).countP (fun p => p.default_value.isSome) =
        a.args.enum.countP (fun x =>
          decide (a.args.length - a.defaults.length ≤ x.1)) := by
      simp only [processArgs]
      rw [List.countP_map]
      apply List.countP_congr
      intro x hx
      have hx1 : x.1 < a.args.length := by
        have hg := List.mem_enum_iff_get?.mp hx
        obtain ⟨hlt, _⟩ := List.get?_eq_some.mp hg
        exact hlt
      rw [decide_eq_true_eq]
      exact processArgs_default_isSome a x.1 hx1
    rw [hcp]
    have hfst : (fun x : Nat × PyArg =>
        decide (a.args.length - a.defaults.length ≤ x.1)) =
        ((fun i => decide (a.args.length - a.defaults.length ≤ i)) ∘
          Prod.fst) := rfl
    rw [hfst, ← List.countP_map, List.enum_map_fst, countP_range_ge]
    omega

/-- Example argument record for the C4 witness: three ordinary
parameters, two trailing defaults, one keyword-only default. -/
def exampleArgsC4 : PyArguments :=
  .mk [.mk "a" none, .mk "b" none, .mk "c" none] none [.mk "z" none]
    [some (.constant "1" none)] none
    [.constant "2" none, .constant "3" none]

/-- Witness for `C4_parameter_arithmetic` at index 1 of a concrete
parameter list. -/
theorem C4_parameter_arithmetic_witness :
    1 < exampleArgsC4.args.length ∧
    (∃ p, (processArgs exampleArgsC4).get? 1 = some p
      ∧ (p.default_value.isSome = true ↔
          exampleArgsC4.args.length - exampleArgsC4.defaults.length ≤ 1)
      ∧ (p.kind = PKind.keyword ↔
          exampleArgsC4.args.length - exampleArgsC4.kw_defaults.length ≤ 1)
      ∧ (p.kind = PKind.positional ↔
          1 < exampleArgsC4.args.length - exampleArgsC4.kw_defaults.length)) :=
  ⟨by decide, (C4_parameter_arithmetic exampleArgsC4).1 1 (by decide)⟩

/-! ## C5: method detection -/

/-- The method test holds exactly when the list is non-empty and its
head is named `self` or `cls`. -/
theorem isMethodParams_iff (ps : List Parameter) :
    isMethodParams ps = true ↔
      ∃ p rest, ps = p :: rest ∧ (p.name = "self" ∨ p.name = "cls") := by
  cases ps with
  | nil =>
      constructor
      · intro h; exact absurd h (by simp [isMethodParams])
      · rintro ⟨p, rest, h, _⟩; cases h
  | cons p rest =>
      constructor
      · intro h
        refine ⟨p, rest, rfl, ?_⟩
        have hor : (p.name == "self") = true ∨ (p.name == "cls") = true := by
          simpa [isMethodParams, Bool.or_eq_true] using h
        rcases hor with h1 | h1
        · exact Or.inl (by simpa using h1)
        · exact Or.inr (by simpa using h1)
      · rintro ⟨q, qrest, hcons, hq⟩
        rw [List.cons.injEq] at hcons
        obtain ⟨rfl, rfl⟩ := hcons
        rcases hq with h | h <;> simp [isMethodParams, h]

/-- C5: for a function-definition node, `is_method` holds exactly when
the first parameter of the assembled parameter list (ordinary
parameters, then `*args`, then `**kwargs` — the declared parameters the
extractor emits) is named exactly `self` or `cls`; when it holds, that
first parameter is removed, so the output list is exactly one shorter
than the raw assembled parameter count; when it does not hold, no
parameter is removed. -/
theorem C5_method_detection (nm : String) (a : PyArguments)
    (b decs : List PyNode) (ret : Option PyNode) (ia : Bool) (l : Nat)
    (el : Option Nat) :
    ((extract_function_signature
        (.functionDef nm a b decs ret ia l el)).is_method = true ↔
      ∃ p rest, rawParams a = p :: rest ∧ (p.name = "self" ∨ p.name = "cls"))
    ∧ ((extract_function_signature
          (.functionDef nm a b decs ret ia l el)).is_method = true →
        (extract_function_signature
          (.functionDef nm a b decs ret ia l el)).parameters.length + 1 =
          (rawParams a).length)
    ∧ ((extract_function_signature
          (.functionDef nm a b decs ret ia l el)).is_method = false →
        (extract_function_signature
          (.functionDef nm a b decs ret ia l el)).parameters =
          rawParams a) := by
  refine ⟨?_, ?_, ?_⟩
  · show isMethodParams (rawParams a) = true ↔ _
    exact isMethodParams_iff (rawParams a)
  · show isMethodParams (rawParams a) = true →
      (if isMethodParams (rawParams a) then (rawParams a).tail
        else rawParams a).length + 1 = (rawParams a).length
    intro h
    rw [if_pos h]
    cases hps : rawParams a with
    | nil => rw [hps] at h; exact absurd h (by simp [isMethodParams])
    | cons p rest => simp
  · show isMethodParams (rawParams a) = false →
      (if isMethodParams (rawParams a) then (rawParams a).tail
        else rawParams a) = rawParams a
    intro h
    rw [if_neg (by simp [h])]

/-- Example method node for the C5 witness: first parameter `self`,
second `x`. -/
def exampleMethodC5 : PyNode :=
  .functionDef "m" (.mk [.mk "self" none, .mk "x" none] none [] [] none [])
    [] [] none false 1 (some 2)

/-- Witness for `C5_method_detection`: the concrete method is detected
and its parameter list is one shorter than the assembled raw list. -/
theorem C5_method_detection_witness :
    (extract_function_signature exampleMethodC5).is_method = true ∧
    (extract_function_signature exampleMethodC5).parameters.length + 1 =
      (rawParams (.mk [.mk "self" none, .mk "x" none] none [] [] none [])).length :=
  have h := C5_method_detection "m"
    (.mk [.mk "self" none, .mk "x" none] none [] [] none [])
    [] [] none false 1 (some 2)
  have hm : (extract_function_signature exampleMethodC5).is_method = true :=
    h.1.mpr ⟨{ name := "self", type := none, default_value := none,
               kind := PKind.positional },
      [{ name := "x", type := none, default_value := none,
         kind := PKind.positional }], by decide, Or.inl rfl⟩
  ⟨hm, h.2.1 hm⟩

/-! ## C9: determinism of extraction -/

/-- Example analyzer state for the C9 witness: one plain function. -/
def exampleAnalyzerC9 : PythonASTAnalyzer :=
  { file_path := "pkg/mod.py",
    source_code := "def add(a, b):\n    return a + b",
    tree := .module
      [.functionDef "add"
        (.mk [.mk "a" none, .mk "b" none] none [] [] none [])
        [.returnStmt (some (.name "a")) 2] [] none false 1 (some 2)] }

/-- C9: the full context build is a pure function of the analyzer state
(file path, source text, parsed tree), the queried name, and the
optional line number; two runs against the same unmodified state yield
identical output records in every field.  The only internally ordered
collection, the deduplicated attribute list, is modelled by the
deterministic first-occurrence deduplication (see the module comment on
`list(set(...))`). -/
theorem C9_determinism (a1 a2 : PythonASTAnalyzer) (nm : String)
    (ln : Option Nat) (ht : a1.tree = a2.tree)
    (hf : a1.file_path = a2.file_path)
    (hs : a1.source_code = a2.source_code) :
    build_function_context a1 nm ln = build_function_context a2 nm ln := by
  cases a1 with
  | mk f1 s1 t1 =>
    cases a2 with
    | mk f2 s2 t2 =>
      simp only at ht hf hs
      rw [ht, hf, hs]

/-- Witness for `C9_determinism`: two runs on the same concrete state
coincide. -/
theorem C9_determinism_witness :
    build_function_context exampleAnalyzerC9 "add" none =
      build_function_context exampleAnalyzerC9 "add" none :=
  C9_determinism exampleAnalyzerC9 exampleAnalyzerC9 "add" none rfl rfl rfl

/-! ## C10: keyword-only parameters are omitted -/

/-- A signature with the kind labels of its parameters erased, for
stating that a change can affect only kinds. -/
def sigSansKinds (s : FunctionSignature) :
    String × List (String × Option String × Option String) ×
      Option String × Bool × Bool × List String :=
  (s.name, s.parameters.map (fun p => (p.name, p.type, p.default_value)),
   s.return_type, s.is_async, s.is_method, s.decorators)

theorem isMethodParams_congr (ps qs : List Parameter)
    (h : ps.map Parameter.name = qs.map Parameter.name) :
    isMethodParams ps = isMethodParams qs := by
  cases ps with
  | nil => cases qs with
    | nil => rfl
    | cons q qrest => simp at h
  | cons p prest => cases qs with
    | nil => simp at h
    | cons q qrest =>
        simp only [List.map_cons, List.cons.injEq] at h
        simp [isMethodParams, h.1]

/-- Erasing kinds from the ordinary-parameter records makes the result
independent of `kw_defaults`, which only feeds the kind labels. -/
theorem processArgs_sansKinds (args : List PyArg) (va : Option PyArg)
    (ko ko2 : List PyArg) (kd kd2 : List (Option PyNode)) (kw : Option PyArg)
    (ds : List PyNode) :
    (processArgs (.mk args va ko kd kw ds)).map
        (fun p => (p.name, p.type, p.default_value)) =
      (processArgs (.mk args va ko2 kd2 kw ds)).map
        (fun p => (p.name, p.type, p.default_value)) := by
  simp only [processArgs, List.map_map]
  rfl

theorem rawParams_sansKinds (args : List PyArg) (va : Option PyArg)
    (ko ko2 : List PyArg) (kd kd2 : List (Option PyNode)) (kw : Option PyArg)
    (ds : List PyNode) :
    (rawParams (.mk args va ko kd kw ds)).map
        (fun p => (p.name, p.type, p.default_value)) =
      (rawParams (.mk args va ko2 kd2 kw ds)).map
        (fun p => (p.name, p.type, p.default_value)) := by
  simp only [rawParams, List.map_append]
  rw [processArgs_sansKinds args va ko ko2 kd kd2 kw ds]
  rfl

theorem rawParams_names_eq (args : List PyArg) (va : Option PyArg)
    (ko ko2 : List PyArg) (kd kd2 : List (Option PyNode)) (kw : Option PyArg)
    (ds : List PyNode) :
    (rawParams (.mk args va ko kd kw ds)).map Parameter.name =
      (rawParams (.mk args va ko2 kd2 kw ds)).map Parameter.name := by
  have h := rawParams_sansKinds args va ko ko2 kd kd2 kw ds
  have h1 := congrArg (List.map (fun q :
      String × Option String × Option String => q.1)) h
  simpa [List.map_map, Function.comp] using h1

/-- C10: keyword-only parameters are never emitted — the extracted
signature is unchanged by any replacement of the `kwonlyargs` list,
every emitted parameter name comes from the ordinary parameters, the
var-positional parameter or the var-keyword parameter, and replacing
`kw_defaults` (whose count drives the keyword reclassification) can
change only the kind labels of the emitted parameters. -/
theorem C10_kwonly_omitted (nm : String) (args : List PyArg)
    (va : Option PyArg) (ko ko2 : List PyArg) (kd kd2 : List (Option PyNode))
    (kw : Option PyArg) (ds b decs : List PyNode) (ret : Option PyNode)
    (ia : Bool) (l : Nat) (el : Option Nat) :
    extract_function_signature
        (.functionDef nm (.mk args va ko kd kw ds) b decs ret ia l el) =
      extract_function_signature
        (.functionDef nm (.mk args va ko2 kd kw ds) b decs ret ia l el)
    ∧ (∀ p ∈ (extract_function_signature
          (.functionDef nm (.mk args va ko kd kw ds) b decs ret ia l
            el)).parameters,
        (∃ x ∈ args, p.name = x.arg) ∨ (∃ v, va = some v ∧ p.name = v.arg)
          ∨ (∃ v, kw = some v ∧ p.name = v.arg))
    ∧ sigSansKinds (extract_function_signature
          (.functionDef nm (.mk args va ko kd kw ds) b decs ret ia l el)) =
      sigSansKinds (extract_function_signature
          (.functionDef nm (.mk args va ko kd2 kw ds) b decs ret ia l el)) := by
  refine ⟨rfl, ?_, ?_⟩
  · intro p hp
    have hp2 : p ∈ rawParams (.mk args va ko kd kw ds) := by
      revert hp
      show p ∈ (if isMethodParams (rawParams (.mk args va ko kd kw ds))
          then (rawParams (.mk args va ko kd kw ds)).tail
          else rawParams (.mk args va ko kd kw ds)) → _
      intro hp
      by_cases hm : isMethodParams (rawParams (.mk args va ko kd kw ds))
      · rw [if_pos hm] at hp
        exact List.mem_of_mem_tail hp
      · rw [if_neg hm] at hp
        exact hp
    rw [rawParams] at hp2
    rcases List.mem_append.mp hp2 with hp3 | hkw
    · rcases List.mem_append.mp hp3 with hord | hva
      · left
        simp only [processArgs] at hord
        obtain ⟨x, hx, hfx⟩ := List.mem_map.mp hord
        have hmem : x.2 ∈ args := by
          have hg := List.mem_enum_iff_get?.mp hx
          exact List.get?_mem hg
        exact ⟨x.2, hmem, by rw [← hfx]⟩
      · right; left
        cases hv : va with
        | none => rw [hv] at hva; simp [varargParams, PyArguments.vararg] at hva
        | some v =>
            rw [hv] at hva
            simp only [varargParams, PyArguments.vararg, List.mem_singleton] at hva
            exact ⟨v, rfl, by rw [hva]⟩
    · right; right
      cases hv : kw with
      | none => rw [hv] at hkw; simp [kwargParams, PyArguments.kwarg] at hkw
      | some v =>
          rw [hv] at hkw
          simp only [kwargParams, PyArguments.kwarg, List.mem_singleton] at hkw
          exact ⟨v, rfl, by rw [hkw]⟩
  · have hraw := rawParams_sansKinds args va ko ko kd kd2 kw ds
    have hnames := rawParams_names_eq args va ko ko kd kd2 kw ds
    have hm := isMethodParams_congr _ _ hnames
    have hparams : (extract_function_signature
        (.functionDef nm (.mk args va ko kd kw ds) b decs ret ia l
          el)).parameters.map (fun p => (p.name, p.type, p.default_value)) =
        (extract_function_signature
        (.functionDef nm (.mk args va ko kd2 kw ds) b decs ret ia l
          el)).parameters.map (fun p => (p.name, p.type, p.default_value)) := by
      show (if isMethodParams (rawParams (.mk args va ko kd kw ds))
          then (rawParams (.mk args va ko kd kw ds)).tail
          else rawParams (.mk args va ko kd kw ds)).map
            (fun p => (p.name, p.type, p.default_value)) =
        (if isMethodParams (rawParams (.mk args va ko kd2 kw ds))
          then (rawParams (.mk args va ko kd2 kw ds)).tail
          else rawParams (.mk args va ko kd2 kw ds)).map
            (fun p => (p.name, p.type, p.default_value))
      by_cases hmm : isMethodParams (rawParams (.mk args va ko kd kw ds))
      · rw [if_pos hmm, if_pos (hm ▸ hmm), List.map_tail, List.map_tail, hraw]
      · rw [if_neg hmm, if_neg (fun hc => hmm (hm ▸ hc))]
        exact hraw
    have hism : (extract_function_signature
        (.functionDef nm (.mk args va ko kd kw ds) b decs ret ia l
          el)).is_method =
        (extract_function_signature
        (.functionDef nm (.mk args va ko kd2 kw ds) b decs ret ia l
          el)).is_method := hm
    simp only [sigSansKinds]
    rw [hparams, hism]
    rfl

/-- Witness for `C10_kwonly_omitted`: in a signature with one ordinary
parameter and one keyword-only parameter, the single emitted parameter
is the ordinary one. -/
theorem C10_kwonly_omitted_witness :
    ({ name := "a", type := none, default_value := none,
       kind := PKind.keyword } : Parameter) ∈
      (extract_function_signature
        (.functionDef "f"
          (.mk [.mk "a" none] none [.mk "q" none]
            [some (.constant "1" none)] none [])
          [] [] none false 1 none)).parameters
    ∧ ((∃ x ∈ [PyArg.mk "a" none],
          ({ name := "a", type := none, default_value := none,
             kind := PKind.keyword } : Parameter).name = x.arg)
        ∨ (∃ v, (none : Option PyArg) = some v ∧
            ({ name := "a", type := none, default_value := none,
               kind := PKind.keyword } : Parameter).name = v.arg)
        ∨ (∃ v, (none : Option PyArg) = some v ∧
            ({ name := "a", type := none, default_value := none,
               kind := PKind.keyword } : Parameter).name = v.arg)) :=
  ⟨by decide,
   (C10_kwonly_omitted "f" [.mk "a" none] none [.mk "q" none] []
      [some (.constant "1" none)] [] none [] [] [] none false 1 none).2.1
     _ (by decide)⟩

/-! ## C3: call-record shape filter -/

/-- Whether an expression is a bare name. -/
def isNameNode : PyNode → Bool
  | .name _ => true
  | _ => false

/-- Whether an expression is an attribute access (on any base). -/
def isAttributeNode : PyNode → Bool
  | .attribute _ _ => true
  | _ => false

/-- The receiver recorded for a callee: the base name of an attribute
access whose base is a bare name, absent otherwise. -/
def attrBaseName : PyNode → Option String
  | .attribute (.name b) _ => some b
  | _ => none

/-- The function name recorded for a callee shape, when any. -/
def calleeName : PyNode → Option String
  | .name i => some i
  | .attribute _ a => some a
  | _ => none

/-- A call whose callee is an attribute access on a call (the shape
`f().g(...)`), for refuting the claim that such a callee yields no
record. -/
def exampleCallC3 : PyNode :=
  .call (.attribute (.call (.name "f") [] 3) "g") [] 3

/-- A function whose body consists of the call `f().g()`. -/
def exampleFuncC3 : PyNode :=
  .functionDef "h" (.mk [] none [] [] none [])
    [.exprStmt exampleCallC3 3] [] none false 1 (some 3)

/-- C3 counterexample: the claim says an attribute access on a
non-name base yields no call record, but `_extract_call_info` produces
one (with an absent receiver), and the body analyzer therefore reports
it. -/
theorem C3_counterexample :
    _extract_call_info exampleCallC3 =
      some { function_name := "g", module := none, line_number := 3,
             is_builtin := false }
    ∧ (analyze_function_body exampleFuncC3).external_calls =
      [{ function_name := "g", module := none, line_number := 3,
         is_builtin := false },
       { function_name := "f", module := none, line_number := 3,
         is_builtin := false }]
    ∧ isAttributeNode (.attribute (.call (.name "f") [] 3) "g") = true
    ∧ attrBaseName (.attribute (.call (.name "f") [] 3) "g") = none := by
  refine ⟨rfl, ?_, rfl, rfl⟩
  simp [analyze_function_body, walk, walkList, walkOpt, walkArguments,
    walkArgList, walkOptArg, walkOptList, bodyStep, exampleFuncC3,
    exampleCallC3, _extract_call_info, BUILTIN_FUNCTIONS]

/-- C3 amended: a call record is produced exactly when the callee is a
bare name or any attribute access; the function name is the bare name
or the attribute respectively, and the receiver is populated exactly
for an attribute access whose base is a bare name — every other base
yields a record with an absent receiver, while only callee shapes that
are neither names nor attribute accesses (a call on a call, a
subscripted callee, ...) yield no record. -/
theorem C3_amended (fn : PyNode) (args : List PyNode) (l : Nat) :
    ((_extract_call_info (.call fn args l)).isSome =
      (isNameNode fn || isAttributeNode fn))
    ∧ ((_extract_call_info (.call fn args l)).map CallInfo.function_name =
        calleeName fn)
    ∧ ((_extract_call_info (.call fn args l)).map CallInfo.module =
        if isNameNode fn || isAttributeNode fn then some (attrBaseName fn)
        else none) := by
  cases fn <;>
    try simp [_extract_call_info, isNameNode, isAttributeNode, calleeName,
      attrBaseName]
  rename_i v a
  cases v <;>
    simp [_extract_call_info, isNameNode, isAttributeNode, calleeName,
      attrBaseName]

/-! ## C2: node locator line disambiguation -/

/-- Same-named nested functions for the C2 counterexample: the outer
`f` spans lines 1-4 and contains an inner `f` starting at line 2. -/
def exampleInnerC2 : PyNode :=
  .functionDef "f" (.mk [] none [] [] none []) [.passStmt 3] [] none false
    2 (some 3)

def exampleOuterC2 : PyNode :=
  .functionDef "f" (.mk [] none [] [] none []) [exampleInnerC2, .passStmt 4]
    [] none false 1 (some 4)

def exampleTreeC2 : PyNode := .module [exampleOuterC2]

/-- C2 counterexample: the candidate set contains a function starting
exactly at the query line 2 (the inner `f`), but the locator returns
the outer `f` (start line 1), whose span merely contains line 2,
because the single scan checks exact match and containment candidate
by candidate instead of preferring exact matches globally. -/
theorem C2_counterexample :
    (locateCandidates exampleTreeC2 "f").map funcLineno = [1, 2]
    ∧ (locate_function_node exampleTreeC2 "f" (some 2)).map funcLineno =
        some 1 := by
  exact ⟨rfl, rfl⟩

/-- C2 amended: the locator returns the first candidate in traversal
order whose start line equals the query line or whose span contains the
query line; consequently a candidate whose start line equals the query
line is returned whenever no earlier candidate already starts at or
spans that line — in particular, for two same-named functions whose
spans do not mutually contain the start lines of one another, querying
each exact start line returns the respective node. -/
theorem C2_amended (tree : PyNode) (nm : String) (q : Nat) (c : PyNode)
    (l1 l2 : List PyNode)
    (hc : locateCandidates tree nm = l1 ++ c :: l2)
    (hline : funcLineno c = q)
    (hbefore : ∀ c2 ∈ l1, locatorMatch q c2 = false) :
    locate_function_node tree nm (some q) = some c := by
  have hpc : locatorMatch q c = true := by
    simp [locatorMatch, hline]
  have hfind : (l1 ++ c :: l2).find? (locatorMatch q) = some c := by
    rw [List.find?_append]
    have h1 : l1.find? (locatorMatch q) = none :=
      List.find?_eq_none.mpr (fun x hx => by simp [hbefore x hx])
    rw [h1]
    simp [List.find?_cons, hpc]
  rw [locate_function_node, hc]
  cases l1 with
  | nil =>
      simp only [List.nil_append] at hfind ⊢
      rw [hfind]
  | cons a rest =>
      simp only [List.cons_append] at hfind ⊢
      rw [hfind]

/-- Two sibling same-named functions for the C2 amended witness. -/
def exampleSib1C2 : PyNode :=
  .functionDef "f" (.mk [] none [] [] none []) [.passStmt 2] [] none false
    1 (some 2)

def exampleSib2C2 : PyNode :=
  .functionDef "f" (.mk [] none [] [] none []) [.passStmt 4] [] none false
    3 (some 4)

def exampleTreeC2W : PyNode := .module [exampleSib1C2, exampleSib2C2]

/-- Witness for `C2_amended`: querying the exact start line of the
second sibling returns it, since the span of the first sibling does
not contain that line. -/
theorem C2_amended_witness :
    locateCandidates exampleTreeC2W "f" = [exampleSib1C2] ++
      exampleSib2C2 :: []
    ∧ funcLineno exampleSib2C2 = 3
    ∧ locate_function_node exampleTreeC2W "f" (some 3) =
        some exampleSib2C2 :=
  ⟨rfl, rfl,
   C2_amended exampleTreeC2W "f" 3 exampleSib2C2 [exampleSib1C2] [] rfl rfl
     (by decide)⟩

/-! ## C1: class-context owner resolution -/

/-- Class name of a class-definition node. -/
def className : PyNode → String
  | .classDef n _ _ _ _ => n
  | _ => ""

/-- The overwrite-fold of the class scan keeps the last matching
element of the scanned list. -/
theorem foldl_classScanStep_eq_getLast? (func_node : PyNode)
    (l : List PyNode) :
    ∀ init : Option PyNode,
      l.foldl (classScanStep func_node) init =
        match (l.filter (classMatches func_node)).getLast? with
        | some z => some z
        | none => init := by
  induction l with
  | nil => intro init; simp
  | cons x xs ih =>
      intro init
      rw [List.foldl_cons]
      by_cases hx : classMatches func_node x
      · rw [List.filter_cons_of_pos hx]
        rw [ih]
        have hstep : classScanStep func_node init x = some x := by
          simp [classScanStep, hx]
        rw [hstep]
        cases hlast : (xs.filter (classMatches func_node)).getLast? with
        | none =>
            have : xs.filter (classMatches func_node) = [] := by
              cases hf : xs.filter (classMatches func_node) with
              | nil => rfl
              | cons y ys => rw [hf] at hlast; simp [List.getLast?] at hlast
            rw [this]
            rfl
        | some z =>
            have hne : xs.filter (classMatches func_node) ≠ [] := by
              intro hemp
              rw [hemp] at hlast
              cases hlast
            rw [List.getLast?_cons, List.getLast?_eq_getLast _ hne] at *
            simp only [hlast]
            cases hf : xs.filter (classMatches func_node) with
            | nil => exact absurd hf hne
            | cons y ys => simp [hf, hlast]
      · rw [List.filter_cons_of_neg hx]
        have hstep : classScanStep func_node init x = init := by
          simp [classScanStep, hx]
        rw [hstep, ih]

/-- C1 amended: the scan over class-definition nodes does not stop at
the first match — every matching class overwrites the previous one, so
the reported owner is the last matching class in traversal order. -/
theorem C1_amended (tree func_node : PyNode) :
    extract_class_context tree func_node =
      (((walk tree).filter (classMatches func_node)).getLast?).map
        (buildClassContext func_node) := by
  rw [extract_class_context, foldl_classScanStep_eq_getLast?]
  cases hlast : ((walk tree).filter (classMatches func_node)).getLast? with
  | none => rfl
  | some z => rfl

/-- The target function of the C1 counterexample, a direct body item of
class `B` starting at line 5. -/
def exampleFuncC1 : PyNode :=
  .functionDef "f" (.mk [.mk "self" none] none [] [] none [])
    [.passStmt 6] [] none false 5 (some 6)

/-- Two classes whose bodies both contain a statement starting at line
5: class `A` comes first in traversal order, class `B` holds the target
function itself. -/
def exampleTreeC1 : PyNode := .module
  [ .classDef "A" [] [.passStmt 5] [] 1
  , .classDef "B" [] [exampleFuncC1] [] 4 ]

/-- C1 counterexample: both classes match the ownership rule and `A` is
the first match in traversal order, but the extractor reports `B`, the
last match — the `break` of the source only ends the scan of one class
body, not the scan over classes. -/
theorem C1_counterexample :
    ((walk exampleTreeC1).filter (classMatches exampleFuncC1)).map
        className = ["A", "B"]
    ∧ (extract_class_context exampleTreeC1 exampleFuncC1).map
        ClassContext.class_name = some "B" := by
  exact ⟨rfl, rfl⟩

/-! ## C8: module-path derivation -/

/-- The three characters of the stripped extension. -/
def pyExt : List Char := ['.', 'p', 'y']

/-- Whether the three characters `.py` occur (as a contiguous
substring) anywhere in the character list. -/
def hasPy : List Char → Bool
  | [] => false
  | [_] => false
  | [_, _] => false
  | c1 :: c2 :: c3 :: rest =>
      (c1 == '.' && c2 == 'p' && c3 == 'y') || hasPy (c2 :: c3 :: rest)

theorem removePy_of_not_hasPy :
    ∀ s : List Char, hasPy s = false → removePy s = s
  | [], _ => rfl
  | [_], _ => rfl
  | [_, _], _ => rfl
  | c1 :: c2 :: c3 :: rest, h => by
      rw [hasPy] at h
      have hg : (c1 == '.' && c2 == 'p' && c3 == 'y') = false := by
        cases hb : (c1 == '.' && c2 == 'p' && c3 == 'y') with
        | false => rfl
        | true => rw [hb] at h; simp at h
      have htail : hasPy (c2 :: c3 :: rest) = false := by
        cases hb : hasPy (c2 :: c3 :: rest) with
        | false => rfl
        | true => rw [hb] at h; simp at h
      have hgp : ¬(c1 = '.' ∧ c2 = 'p' ∧ c3 = 'y') := by
        rintro ⟨h1, h2, h3⟩
        simp [h1, h2, h3] at hg
      rw [removePy, if_neg hgp,
        removePy_of_not_hasPy (c2 :: c3 :: rest) htail]

theorem removePy_append_ext :
    ∀ pre : List Char, hasPy pre = false →
      removePy (pre ++ pyExt) = pre
  | [], _ => by decide
  | [c], _ => by
      have hgp : ¬(c = '.' ∧ ('.' : Char) = 'p' ∧ ('p' : Char) = 'y') := by
        rintro ⟨-, h2, -⟩
        exact absurd h2 (by decide)
      rw [show [c] ++ pyExt = c :: '.' :: 'p' :: ['y'] from rfl,
        removePy, if_neg hgp,
        show removePy ('.' :: 'p' :: ['y']) = [] from by decide]
  | [c1, c2], _ => by
      have hgp1 : ¬(c1 = '.' ∧ c2 = 'p' ∧ ('.' : Char) = 'y') := by
        rintro ⟨-, -, h3⟩
        exact absurd h3 (by decide)
      have hgp2 : ¬(c2 = '.' ∧ ('.' : Char) = 'p' ∧ ('p' : Char) = 'y') := by
        rintro ⟨-, h2, -⟩
        exact absurd h2 (by decide)
      rw [show [c1, c2] ++ pyExt = c1 :: c2 :: '.' :: 'p' :: ['y'] from rfl,
        removePy, if_neg hgp1, removePy, if_neg hgp2,
        show removePy ('.' :: 'p' :: ['y']) = [] from by decide]
  | c1 :: c2 :: c3 :: rest, h => by
      rw [hasPy] at h
      have hg : (c1 == '.' && c2 == 'p' && c3 == 'y') = false := by
        cases hb : (c1 == '.' && c2 == 'p' && c3 == 'y') with
        | false => rfl
        | true => rw [hb] at h; simp at h
      have htail : hasPy (c2 :: c3 :: rest) = false := by
        cases hb : hasPy (c2 :: c3 :: rest) with
        | false => rfl
        | true => rw [hb] at h; simp at h
      have hgp : ¬(c1 = '.' ∧ c2 = 'p' ∧ c3 = 'y') := by
        rintro ⟨h1, h2, h3⟩
        simp [h1, h2, h3] at hg
      rw [show (c1 :: c2 :: c3 :: rest) ++ pyExt =
          c1 :: c2 :: c3 :: (rest ++ pyExt) from rfl,
        removePy, if_neg hgp,
        show c2 :: c3 :: (rest ++ pyExt) = (c2 :: c3 :: rest) ++ pyExt
          from rfl,
        removePy_append_ext (c2 :: c3 :: rest) htail]

/-- Modelled from the words of the specification, for comparison with
the code: strip the extension only when it is a trailing suffix. -/
def stripPySuffix (s : List Char) : List Char :=
  if pyExt.isSuffixOf s then s.take (s.length - 3) else s

/-- Modelled from the words of the specification, for comparison with
the code: suffix-only extension strip, separator replacement, one
leading join character stripped. -/
def specModulePathChars (s : List Char) : List Char :=
  stripLeadingDot (replaceBackslash (replaceSlash (stripPySuffix s)))

theorem stripPySuffix_append (pre : List Char) :
    stripPySuffix (pre ++ pyExt) = pre := by
  rw [stripPySuffix]
  have hsuf : pyExt.isSuffixOf (pre ++ pyExt) = true :=
    List.isSuffixOf_iff_suffix.mpr ⟨pre, rfl⟩
  rw [if_pos hsuf]
  have hlen : (pre ++ pyExt).length - 3 = pre.length := by
    simp [pyExt]
  rw [hlen, List.take_left]

/-- C8 counterexample: `replace(".py", "")` removes every occurrence
of the extension substring, not only a trailing one, so the path
`a.pyb/c.py` derives to `ab.c` instead of the `a.pyb.c` the claim
describes (all other characters preserved, suffix-only strip). -/
theorem C8_counterexample :
    modulePathOf "a.pyb/c.py" = "ab.c"
    ∧ String.mk (specModulePathChars ("a.pyb/c.py").data) = "a.pyb.c"
    ∧ ("ab.c" : String) ≠ "a.pyb.c" := by
  exact ⟨rfl, rfl, by decide⟩

/-- C8 amended: the derivation removes every occurrence of the
extension substring anywhere in the path; consequently, for every file
path whose only occurrence of `.py` is the trailing extension, the
derived module path is exactly as the claim describes: suffix stripped,
separators replaced by the join character, one leading join character
stripped, all other characters preserved in order. -/
theorem C8_amended (pre : List Char) (h : hasPy pre = false) :
    modulePathChars (pre ++ pyExt) = specModulePathChars (pre ++ pyExt) := by
  rw [modulePathChars, specModulePathChars, removePy_append_ext pre h,
    stripPySuffix_append]

/-- Witness for `C8_amended` on the concrete path `src/mod.py`. -/
theorem C8_amended_witness :
    hasPy ("src/mod").data = false
    ∧ modulePathChars (("src/mod").data ++ pyExt) =
        specModulePathChars (("src/mod").data ++ pyExt) :=
  ⟨by decide, C8_amended ("src/mod").data (by decide)⟩
